import Mathlib

/-!
Verification of the substring-search core and the pure tool-surface logic of a
Dropbox MCP server (`dockerfile.py`).  Strings are modelled as `List Char`;
Python `str.lower()` is modelled by the length-stable per-character
`Char.toLower` map; Python exceptions raised by the remote store / extractors
are modelled by `Except`.
-/

namespace DropboxMCP

/-- Python `str.lower()` on our string model: per-character lowering.
Length-stable by construction (the implementation invariant flagged in the
spec). -/
def lowerStr (s : List Char) : List Char := s.map Char.toLower

/-- `occursAt text pat p` holds when `pat` occurs in `text` at offset `p`,
i.e. `text[p : p + len(pat)] == pat` with the slice fully in bounds (this is
exactly the success condition of Python `str.find` at candidate index `p`;
for the empty pattern it holds at every `p ≤ len(text)`). -/
def occursAt (text pat : List Char) (p : Nat) : Bool :=
  decide (p + pat.length ≤ text.length) && ((text.drop p).take pat.length == pat)

/-- Linear scan for the first index `p₀ ≥ p` (trying at most `fuel`
candidates) with `P p₀`; the computational content of Python `str.find`. -/
def scanFind (P : Nat → Bool) : Nat → Nat → Option Nat
  | 0, _ => none
  | fuel + 1, p => if P p then some p else scanFind P fuel (p + 1)

/-- Python `text.find(pat, start)` (returning `none` for `-1`): the least
`p ≥ start` with `p ≤ len(text) - len(pat)` where `pat` occurs. -/
def findFrom (text pat : List Char) (start : Nat) : Option Nat :=
  scanFind (occursAt text pat) (text.length + 1 - start) start

/-- One content match of `search_file_content`: a record of the reported
position, context window and line number. -/
structure ContentMatch where
  position : Nat
  context : List Char
  line_number : Nat
deriving Repr, DecidableEq

/-- The match record built at offset `pos` inside `search_file_content`:
`context = content[max(0, pos - cc) : min(len(content), pos + len(query) + cc)]`
(`Nat` subtraction is the `max 0` clamp and `take` the `min len` clamp) and
`line_number = content[:pos].count('\n') + 1`. -/
def mkMatch (content query : List Char) (context_chars : Nat) (pos : Nat) : ContentMatch :=
  { position := pos
  , context := (content.take (pos + query.length + context_chars)).drop (pos - context_chars)
  , line_number := (content.take pos).count '\n' + 1 }

/-- The `while True` search loop of `search_file_content`, searching the
lowered content for the lowered query from cursor `start` and advancing the
cursor to `pos + 1` after each hit.  Structural recursion on `fuel`; the
adequacy lemmas below show any `fuel ≥ len(content) + 1 - start` computes the
loop's exact result. -/
def searchFromFuel (content query : List Char) (context_chars : Nat) :
    Nat → Nat → List ContentMatch
  | 0, _ => []
  | fuel + 1, start =>
    match findFrom (lowerStr content) (lowerStr query) start with
    | none => []
    | some pos =>
        mkMatch content query context_chars pos ::
          searchFromFuel content query context_chars fuel (pos + 1)

/-- The matches list `search_file_content` computes for one file's extracted
`content`: run the search loop with cursor `0`. -/
def searchContent (content query : List Char) (context_chars : Nat) : List ContentMatch :=
  searchFromFuel content query context_chars (content.length + 1) 0

/-- Spec-side notion for claim comparison: the list of all offsets at which
the lowered query occurs in the lowered text (possibly overlapping,
ascending). -/
def occPositions (text query : List Char) : List Nat :=
  (List.range (text.length + 1)).filter (occursAt (lowerStr text) (lowerStr query))

/-- Spec-side notion: the number of (possibly overlapping) case-insensitive
occurrences of `query` in `text`. -/
def countOccurrences (text query : List Char) : Nat :=
  (occPositions text query).length

theorem lowerStr_length (s : List Char) : (lowerStr s).length = s.length := by
  simp [lowerStr]

theorem occursAt_bound {text pat : List Char} {p : Nat} (h : occursAt text pat p = true) :
    p + pat.length ≤ text.length :=
  of_decide_eq_true ((Bool.and_eq_true _ _).mp h).1

theorem scanFind_some {P : Nat → Bool} {f p q : Nat} (h : scanFind P f q = some p) :
    q ≤ p ∧ p < q + f ∧ P p = true ∧ ∀ r, q ≤ r → r < p → P r = false := by
  induction f generalizing q with
  | zero => exact absurd h (by simp [scanFind])
  | succ f ih =>
    rw [scanFind] at h
    by_cases hq : P q = true
    · rw [if_pos hq] at h
      obtain rfl : q = p := Option.some.inj h
      exact ⟨Nat.le_refl _, by omega, hq, fun r h1 h2 => by omega⟩
    · rw [if_neg hq] at h
      obtain ⟨h1, h2, h3, h4⟩ := ih h
      refine ⟨by omega, by omega, h3, fun r hr1 hr2 => ?_⟩
      rcases Nat.eq_or_lt_of_le hr1 with he | hl
      · subst he
        simpa using hq
      · exact h4 r hl hr2

theorem scanFind_none {P : Nat → Bool} {f q : Nat} (h : scanFind P f q = none) :
    ∀ r, q ≤ r → r < q + f → P r = false := by
  induction f generalizing q with
  | zero => intro r h1 h2; omega
  | succ f ih =>
    rw [scanFind] at h
    by_cases hq : P q = true
    · rw [if_pos hq] at h; exact absurd h (by simp)
    · rw [if_neg hq] at h
      intro r h1 h2
      rcases Nat.eq_or_lt_of_le h1 with he | hl
      · subst he; simpa using hq
      · exact ih h r hl (by omega)

theorem findFrom_some {text pat : List Char} {start pos : Nat}
    (h : findFrom text pat start = some pos) :
    start ≤ pos ∧ pos ≤ text.length ∧ occursAt text pat pos = true ∧
      ∀ r, start ≤ r → r < pos → occursAt text pat r = false := by
  obtain ⟨h1, h2, h3, h4⟩ := scanFind_some h
  exact ⟨h1, by have := occursAt_bound h3; omega, h3, h4⟩

theorem findFrom_none {text pat : List Char} {start : Nat}
    (h : findFrom text pat start = none) :
    ∀ r, start ≤ r → r ≤ text.length → occursAt text pat r = false := by
  intro r h1 h2
  exact scanFind_none h r h1 (by omega)

/-- Master characterization of the search loop: with adequate fuel
(`fuel ≥ len(content) + 1 - start`, which the wrapper always supplies), the
loop starting at cursor `start` returns exactly one `mkMatch` record per
occurrence offset `≥ start`, in ascending order. -/
theorem searchFromFuel_eq_filter (content query : List Char) (cc : Nat) :
    ∀ (fuel start : Nat), content.length + 1 ≤ start + fuel →
      searchFromFuel content query cc fuel start =
        ((List.range' start (content.length + 1 - start)).filter
            (occursAt (lowerStr content) (lowerStr query))).map (mkMatch content query cc) := by
  intro fuel
  induction fuel with
  | zero =>
    intro start hs
    have h0 : content.length + 1 - start = 0 := by omega
    simp [searchFromFuel, h0, List.range']
  | succ fuel ih =>
    intro start hs
    rw [searchFromFuel]
    have hlen : (lowerStr content).length = content.length := lowerStr_length content
    match hf : findFrom (lowerStr content) (lowerStr query) start with
    | none =>
      have hnone := findFrom_none hf
      rw [hlen] at hnone
      have hfil : (List.range' start (content.length + 1 - start)).filter
          (occursAt (lowerStr content) (lowerStr query)) = [] := by
        rw [List.filter_eq_nil_iff]
        intro a ha
        rw [List.mem_range'_1] at ha
        simp only [Bool.not_eq_true]
        exact hnone a ha.1 (by omega)
      rw [hfil, List.map_nil]
    | some pos =>
      obtain ⟨hsp, hpl, hocc, hmin⟩ := findFrom_some hf
      rw [hlen] at hpl
      show mkMatch content query cc pos :: searchFromFuel content query cc fuel (pos + 1) =
        List.map (mkMatch content query cc)
          (List.filter (occursAt (lowerStr content) (lowerStr query))
            (List.range' start (content.length + 1 - start)))
      have hsplit : List.range' start (content.length + 1 - start) =
          List.range' start (pos - start) ++ List.range' pos (content.length + 1 - pos) := by
        have := List.range'_append start (pos - start) (content.length + 1 - pos) 1
        rw [Nat.one_mul] at this
        have h1 : start + (pos - start) = pos := by omega
        have h2 : content.length + 1 - pos + (pos - start) = content.length + 1 - start := by
          omega
        rw [h1, h2] at this
        exact this.symm
      rw [hsplit, List.filter_append]
      have hfil1 : (List.range' start (pos - start)).filter
          (occursAt (lowerStr content) (lowerStr query)) = [] := by
        rw [List.filter_eq_nil_iff]
        intro a ha
        rw [List.mem_range'_1] at ha
        simp only [Bool.not_eq_true]
        exact hmin a ha.1 (by omega)
      have hsucc : content.length + 1 - pos = (content.length - pos) + 1 := by omega
      rw [hfil1, List.nil_append, hsucc, List.range']
      rw [List.filter_cons_of_pos hocc, List.map_cons]
      have htail : content.length - pos = content.length + 1 - (pos + 1) := by omega
      rw [htail, ih (pos + 1) (by omega)]

/-- The matches list computed per file equals one `mkMatch` record per
(possibly overlapping) case-insensitive occurrence offset, ascending. -/
theorem searchContent_eq (content query : List Char) (cc : Nat) :
    searchContent content query cc =
      (occPositions content query).map (mkMatch content query cc) := by
  rw [searchContent,
    searchFromFuel_eq_filter content query cc (content.length + 1) 0 (by omega),
    occPositions, List.range_eq_range', Nat.sub_zero]

/-- One per-file entry of `search_file_content`'s result list. -/
structure ContentSearchResult where
  file_path : List Char
  file_name : List Char
  «matches» : List ContentMatch
  total_matches : Nat
deriving Repr, DecidableEq

/-- Python `file_path.split('/')[-1]` (`splitOn` never returns an empty
list, so the default is never used). -/
def lastPathComponent (path : List Char) : List Char :=
  (path.splitOn '/').getLastD []

/-- One iteration of `search_file_content`'s per-path loop.  Extraction via
`get_file_content` may fail (a raised exception, modelled by `Except.error`);
the `try/except` catches it, logs, and skips the path (`none`).  An entry is
appended only when the matches list is non-empty, carrying
`total_matches = len(matches)`. -/
def processPath (getContent : List Char → Except (List Char) (List Char))
    (query : List Char) (context_chars : Nat) (file_path : List Char) :
    Option ContentSearchResult :=
  match getContent file_path with
  | Except.error _ => none
  | Except.ok content =>
      let ms := searchContent content query context_chars
      if ms.isEmpty then none
      else some { file_path := file_path
                , file_name := lastPathComponent file_path
                , «matches» := ms
                , total_matches := ms.length }

/-- The batch behaviour of `search_file_content`: each path is processed
independently and skipped paths contribute nothing. -/
def search_file_content (getContent : List Char → Except (List Char) (List Char))
    (file_paths : List (List Char)) (query : List Char) (context_chars : Nat) :
    List ContentSearchResult :=
  file_paths.filterMap (processPath getContent query context_chars)

/-- Truncation logic of `read_file` applied to the extracted `content`: if
`max_length > 0` and `len(content) > max_length`, return
`content[:max_length]` followed by the truncation note naming the total
character count; otherwise return the content unchanged. -/
def read_file (content : List Char) (max_length : Int) : List Char :=
  if 0 < max_length ∧ max_length < (content.length : Int) then
    content.take max_length.toNat ++
      ("\n\n[Content truncated - file has ".data ++
        (Nat.repr content.length).data ++ " total characters]".data)
  else content

/-- Result record of the filename search. -/
structure SearchResult where
  file_path : List Char
  file_name : List Char
  match_context : List Char
  file_size : Nat
  modified : List Char
deriving Repr, DecidableEq

/-- A remote search hit's metadata: either `FileMetadata` (with its
`path_lower`, `name`, `size` and serialized `server_modified`) or any other
metadata kind, which `search_files` ignores. -/
inductive Metadata where
  | file (path_lower name : List Char) (size : Nat) (server_modified : List Char)
  | other
deriving Repr, DecidableEq

/-- Python `str.strip()`: drop leading and trailing whitespace. -/
def pyStrip (s : List Char) : List Char :=
  ((s.dropWhile Char.isWhitespace).reverse.dropWhile Char.isWhitespace).reverse

/-- The extension allow-list `search_files` computes from `file_types`. -/
def parseFileTypes (file_types : List Char) : List (List Char) :=
  if lowerStr file_types = "all".data then
    [".pdf".data, ".docx".data, ".doc".data, ".txt".data, ".md".data, ".py".data,
      ".js".data, ".html".data, ".css".data, ".json".data, ".csv".data]
  else if lowerStr file_types = "pdf".data then [".pdf".data]
  else if lowerStr file_types = "docx".data then [".docx".data, ".doc".data]
  else if lowerStr file_types = "txt".data then [".txt".data, ".md".data]
  else (file_types.splitOn ',').map (fun ext => '.' :: pyStrip ext)

/-- The `max_results` option the code passes to the remote filename search:
`max_results * 2`, to get extra candidates to filter by extension. -/
def remoteSearchLimit (max_results : Nat) : Nat := max_results * 2

/-- The result-collecting loop of `search_files` over the remote matches:
break as soon as `len(results) ≥ max_results`; keep only file entries whose
lowered path ends in one of the allowed extensions.  `count` is
`len(results)` accumulated so far. -/
def searchFilesLoop (extensions : List (List Char)) (max_results : Nat) :
    Nat → List Metadata → List SearchResult
  | _, [] => []
  | count, m :: rest =>
    if max_results ≤ count then []
    else
      match m with
      | Metadata.file path_lower name size server_modified =>
          if extensions.any (fun ext => ext.isSuffixOf path_lower) then
            { file_path := path_lower
            , file_name := name
            , match_context := "Filename match: ".data ++ name
            , file_size := size
            , modified := server_modified } ::
              searchFilesLoop extensions max_results (count + 1) rest
          else searchFilesLoop extensions max_results count rest
      | Metadata.other => searchFilesLoop extensions max_results count rest

/-- The filtering core of `search_files`, applied to the entries the remote
filename search returned. -/
def search_files (remote_matches : List Metadata) (file_types : List Char)
    (max_results : Nat) : List SearchResult :=
  searchFilesLoop (parseFileTypes file_types) max_results 0 remote_matches

/-- Outcome of invoking an optional third-party decoder inside an extractor:
the library is absent (`PyPDF2`/`python-docx` not importable), the decode
raised internally with some message, or it produced the decoded text parts
(PDF pages / DOCX paragraphs). -/
inductive DecodeOutcome where
  | unavailable
  | failure (msg : List Char)
  | parts (texts : List (List Char))
deriving Repr, DecidableEq

/-- `extract_text_from_pdf`: placeholder when the library is missing, a
bracketed error message when decoding raises (the `except` branch), and
otherwise the page texts joined with newlines and stripped. -/
def extract_text_from_pdf (pdf : DecodeOutcome) : List Char :=
  match pdf with
  | DecodeOutcome.unavailable => "[PDF text extraction not available - install PyPDF2]".data
  | DecodeOutcome.failure e => "[Error extracting PDF text: ".data ++ e ++ "]".data
  | DecodeOutcome.parts pages =>
      pyStrip (pages.foldl (fun text page => text ++ page ++ "\n".data) [])

/-- `extract_text_from_docx`: same shape as the PDF extractor, over
paragraph texts. -/
def extract_text_from_docx (docx : DecodeOutcome) : List Char :=
  match docx with
  | DecodeOutcome.unavailable =>
      "[DOCX text extraction not available - install python-docx]".data
  | DecodeOutcome.failure e => "[Error extracting DOCX text: ".data ++ e ++ "]".data
  | DecodeOutcome.parts paragraphs =>
      pyStrip (paragraphs.foldl (fun text para => text ++ para ++ "\n".data) [])

/-- C1: for every text and non-empty query, the substring search loop in
`search_file_content` returns exactly one match per (possibly overlapping)
case-insensitive occurrence of the query in the text — the cursor advances by
1 after each hit, so the reported positions are exactly the occurrence
offsets and the number of matches equals the occurrence count. -/
theorem C1_overlapping_occurrences (text query : List Char) (context_chars : Nat)
    (_hq : query ≠ []) :
    (searchContent text query context_chars).map (fun m => m.position) =
        occPositions text query ∧
      (searchContent text query context_chars).length = countOccurrences text query := by
  constructor
  · rw [searchContent_eq, List.map_map]
    have hcomp : (fun m => ContentMatch.position m) ∘ mkMatch text query context_chars =
        fun p => p := rfl
    rw [hcomp, List.map_id']
  · rw [searchContent_eq, List.length_map, countOccurrences]

/-- C1 witness: searching "aa" in "aaa" yields exactly the two overlapping
matches at offsets 0 and 1. -/
theorem C1_witness :
    "aa".data ≠ ([] : List Char) ∧
      ((searchContent "aaa".data "aa".data 0).map (fun m => m.position) =
          occPositions "aaa".data "aa".data ∧
        (searchContent "aaa".data "aa".data 0).length =
          countOccurrences "aaa".data "aa".data) :=
  ⟨by decide, C1_overlapping_occurrences "aaa".data "aa".data 0 (by decide)⟩

/-- C2: every match recorded at offset P carries
`line_number = 1 + count of newline characters in text[0:P]`. -/
theorem C2_line_number (text query : List Char) (context_chars : Nat)
    (m : ContentMatch) (hm : m ∈ searchContent text query context_chars) :
    m.line_number = (text.take m.position).count '\n' + 1 := by
  rw [searchContent_eq] at hm
  obtain ⟨p, hp, rfl⟩ := List.mem_map.mp hm
  rfl

/-- C2 witness: in "ab\nab" the match of "ab" at offset 3 is on line 2. -/
theorem C2_witness :
    (⟨3, "ab".data, 2⟩ : ContentMatch) ∈ searchContent "ab\nab".data "ab".data 0 ∧
      (⟨3, "ab".data, 2⟩ : ContentMatch).line_number =
        ("ab\nab".data.take 3).count '\n' + 1 :=
  ⟨by decide, C2_line_number "ab\nab".data "ab".data 0 _ (by decide)⟩

/-- C3: each match's context equals the substring of the original text from
`max(0, P - context_chars)` to `min(len(text), P + len(query) +
context_chars)` (clamping performed here by truncated subtraction and
`take`); hence the context is always an in-bounds contiguous substring of the
text, and with `context_chars = 0` it is exactly the matched substring. -/
theorem C3_context_window (text query : List Char) (context_chars : Nat)
    (m : ContentMatch) (hm : m ∈ searchContent text query context_chars) :
    m.context =
        (text.take (m.position + query.length + context_chars)).drop
          (m.position - context_chars) ∧
      m.context <:+: text ∧
      (context_chars = 0 → m.context = (text.drop m.position).take query.length) := by
  rw [searchContent_eq] at hm
  obtain ⟨p, hp, rfl⟩ := List.mem_map.mp hm
  refine ⟨rfl, ?_, ?_⟩
  · exact List.IsInfix.trans
      ( List.IsSuffix.isInfix (List.drop_suffix _ _))
      ( List.IsPrefix.isInfix ( List.take_prefix _ _))
  · intro h0
    subst h0
    show (text.take (p + query.length + 0)).drop (p - 0) =
      (text.drop p).take query.length
    rw [Nat.add_zero, Nat.sub_zero, List.drop_take, Nat.add_sub_cancel_left]

/-- C3 witness: the match of "bc" in "abcd" at offset 1 with
`context_chars = 0` has context exactly "bc", an infix of the text. -/
theorem C3_witness :
    (⟨1, "bc".data, 1⟩ : ContentMatch) ∈ searchContent "abcd".data "bc".data 0 ∧
      ((⟨1, "bc".data, 1⟩ : ContentMatch).context =
          ("abcd".data.take (1 + "bc".data.length + 0)).drop (1 - 0) ∧
        (⟨1, "bc".data, 1⟩ : ContentMatch).context <:+: "abcd".data ∧
        (0 = 0 → (⟨1, "bc".data, 1⟩ : ContentMatch).context =
          ("abcd".data.drop 1).take "bc".data.length)) :=
  ⟨by decide, C3_context_window "abcd".data "bc".data 0 _ (by decide)⟩

/-- C4: lower-casing is length-stable in this model, so every reported
position is index-compatible with the ORIGINAL text: the match slice
`text[P : P + len(query)]` taken from the original text is in bounds and is a
case-insensitive match of the query. -/
theorem C4_original_text_offsets (text query : List Char) (context_chars : Nat)
    (m : ContentMatch) (hm : m ∈ searchContent text query context_chars) :
    (lowerStr text).length = text.length ∧
      m.position + query.length ≤ text.length ∧
      lowerStr ((text.drop m.position).take query.length) = lowerStr query := by
  rw [searchContent_eq] at hm
  obtain ⟨p, hp, rfl⟩ := List.mem_map.mp hm
  rw [occPositions, List.mem_filter] at hp
  obtain ⟨-, hocc⟩ := hp
  have hbound := occursAt_bound hocc
  rw [lowerStr_length, lowerStr_length] at hbound
  refine ⟨lowerStr_length text, hbound, ?_⟩
  have heq : ((lowerStr text).drop p).take (lowerStr query).length = lowerStr query :=
    eq_of_beq ((Bool.and_eq_true _ _).mp hocc).2
  rw [lowerStr_length] at heq
  show lowerStr ((text.drop p).take query.length) = lowerStr query
  rw [lowerStr, List.map_take, List.map_drop]
  exact heq

/-- C4 witness: the match of "B" in "aB" is reported at offset 1 of the
original mixed-case text, whose slice there is a case-insensitive match. -/
theorem C4_witness :
    (⟨1, "B".data, 1⟩ : ContentMatch) ∈ searchContent "aB".data "b".data 0 ∧
      ((lowerStr "aB".data).length = "aB".data.length ∧
        1 + "b".data.length ≤ "aB".data.length ∧
        lowerStr (("aB".data.drop 1).take "b".data.length) = lowerStr "b".data) :=
  ⟨by decide, C4_original_text_offsets "aB".data "b".data 0 ⟨1, "B".data, 1⟩ (by decide)⟩

/-- C10: with the empty query the loop still terminates — the cursor strictly
increases and `find` stops matching past the end of the text — and it records
exactly `len(text) + 1` matches, one at every offset `0 .. len(text)`. -/
theorem C10_empty_query (text : List Char) (context_chars : Nat) :
    (searchContent text ([] : List Char) context_chars).map (fun m => m.position) =
        List.range (text.length + 1) ∧
      (searchContent text ([] : List Char) context_chars).length = text.length + 1 := by
  have hall : occPositions text [] = List.range (text.length + 1) := by
    rw [occPositions]
    apply List.filter_eq_self.mpr
    intro a ha
    rw [List.mem_range] at ha
    simp only [occursAt, lowerStr, List.map_nil, List.length_nil, List.length_map,
      Nat.add_zero, List.take_zero, Bool.and_eq_true, decide_eq_true_eq]
    exact ⟨by omega, rfl⟩
  constructor
  · rw [searchContent_eq, List.map_map]
    have hcomp : (fun m => ContentMatch.position m) ∘ mkMatch text [] context_chars =
        fun p => p := rfl
    rw [hcomp, List.map_id', hall]
  · rw [searchContent_eq, List.length_map, hall, List.length_range]

/-- C5: every entry `search_file_content` returns has `total_matches` equal
to the length of its matches list, a non-empty matches list (so
`total_matches ≥ 1`), and comes from a file whose extraction succeeded and
whose content the engine found occurrences in — files without occurrences
are omitted. -/
theorem C5_total_matches_invariant
    (getContent : List Char → Except (List Char) (List Char))
    (file_paths : List (List Char)) (query : List Char) (context_chars : Nat)
    (r : ContentSearchResult)
    (hr : r ∈ search_file_content getContent file_paths query context_chars) :
    r.total_matches = r.«matches».length ∧
      r.«matches» ≠ [] ∧
      1 ≤ r.total_matches ∧
      ∃ content, getContent r.file_path = Except.ok content ∧
        r.«matches» = searchContent content query context_chars := by
  rw [search_file_content] at hr
  obtain ⟨p, hp, hproc⟩ := List.mem_filterMap.mp hr
  cases hgc : getContent p with
  | error e =>
      rw [processPath, hgc] at hproc
      exact absurd hproc (by simp)
  | ok content =>
      simp only [processPath, hgc] at hproc
      by_cases hne : (searchContent content query context_chars).isEmpty
      · rw [if_pos hne] at hproc
        exact absurd hproc (by simp)
      · rw [if_neg hne] at hproc
        obtain rfl := Option.some.inj hproc
        have hnil : searchContent content query context_chars ≠ [] := by
          intro hcon
          exact hne (by rw [hcon]; rfl)
        refine ⟨rfl, hnil, ?_, content, hgc, rfl⟩
        show 1 ≤ (searchContent content query context_chars).length
        have := List.length_pos.mpr hnil
        omega

/-- C5 witness: one file of content "aaa" searched for "aa" yields one entry
with two matches and `total_matches = 2`. -/
theorem C5_witness :
    (⟨"f".data, "f".data, [⟨0, "aa".data, 1⟩, ⟨1, "aa".data, 1⟩], 2⟩ : ContentSearchResult) ∈
        search_file_content
          (fun _ => Except.ok "aaa".data : List Char → Except (List Char) (List Char))
          ["f".data] "aa".data 0 ∧
      ((⟨"f".data, "f".data, [⟨0, "aa".data, 1⟩, ⟨1, "aa".data, 1⟩], 2⟩ :
            ContentSearchResult).total_matches =
          (⟨"f".data, "f".data, [⟨0, "aa".data, 1⟩, ⟨1, "aa".data, 1⟩], 2⟩ :
            ContentSearchResult).«matches».length ∧
        (⟨"f".data, "f".data, [⟨0, "aa".data, 1⟩, ⟨1, "aa".data, 1⟩], 2⟩ :
            ContentSearchResult).«matches» ≠ [] ∧
        1 ≤ (⟨"f".data, "f".data, [⟨0, "aa".data, 1⟩, ⟨1, "aa".data, 1⟩], 2⟩ :
            ContentSearchResult).total_matches ∧
        ∃ content,
          (fun _ => Except.ok "aaa".data : List Char → Except (List Char) (List Char))
              (⟨"f".data, "f".data, [⟨0, "aa".data, 1⟩, ⟨1, "aa".data, 1⟩], 2⟩ :
                ContentSearchResult).file_path = Except.ok content ∧
            (⟨"f".data, "f".data, [⟨0, "aa".data, 1⟩, ⟨1, "aa".data, 1⟩], 2⟩ :
                ContentSearchResult).«matches» = searchContent content "aa".data 0) :=
  ⟨by decide,
    C5_total_matches_invariant
      (fun _ => Except.ok "aaa".data : List Char → Except (List Char) (List Char))
      ["f".data] "aa".data 0 _ (by decide)⟩

/-- C6: if `max_length > 0` and the content is longer than `max_length`, the
result of `read_file` is the first `max_length` characters of the content
followed by a truncation note that names the total character count (the
decimal rendering of the length occurs in the result); otherwise the content
is returned unchanged. -/
theorem C6_read_file_truncation (content : List Char) (max_length : Int) :
    (0 < max_length → max_length < (content.length : Int) →
        read_file content max_length =
            content.take max_length.toNat ++
              ("\n\n[Content truncated - file has ".data ++
                (Nat.repr content.length).data ++ " total characters]".data) ∧
          (read_file content max_length).take max_length.toNat =
            content.take max_length.toNat ∧
          (Nat.repr content.length).data <:+: read_file content max_length) ∧
      (¬(0 < max_length ∧ max_length < (content.length : Int)) →
        read_file content max_length = content) := by
  constructor
  · intro h1 h2
    have hif : read_file content max_length =
        content.take max_length.toNat ++
          ("\n\n[Content truncated - file has ".data ++
            (Nat.repr content.length).data ++ " total characters]".data) := by
      rw [read_file, if_pos ⟨h1, h2⟩]
    refine ⟨hif, ?_, ?_⟩
    · rw [hif]
      have hlen : (content.take max_length.toNat).length = max_length.toNat := by
        rw [List.length_take]
        have hle : max_length.toNat ≤ content.length := by omega
        omega
      exact List.take_left' hlen
    · rw [hif]
      exact ⟨content.take max_length.toNat ++ "\n\n[Content truncated - file has ".data,
        " total characters]".data, by simp [List.append_assoc]⟩
  · intro h
    rw [read_file, if_neg h]

/-- C6 witness: `max_length = 10` on 50-character content returns its first
10 characters plus a note mentioning "50". -/
theorem C6_witness :
    0 < (10 : Int) ∧ (10 : Int) < ((List.replicate 50 'x').length : Int) ∧
      (read_file (List.replicate 50 'x') 10 =
          (List.replicate 50 'x').take (10 : Int).toNat ++
            ("\n\n[Content truncated - file has ".data ++
              (Nat.repr (List.replicate 50 'x').length).data ++ " total characters]".data) ∧
        (read_file (List.replicate 50 'x') 10).take (10 : Int).toNat =
          (List.replicate 50 'x').take (10 : Int).toNat ∧
        (Nat.repr (List.replicate 50 'x').length).data <:+:
          read_file (List.replicate 50 'x') 10) :=
  ⟨by decide, by decide,
    (C6_read_file_truncation (List.replicate 50 'x') 10).1 (by decide) (by decide)⟩

theorem searchFilesLoop_cons_file (extensions : List (List Char))
    (max_results count : Nat) (path_lower name : List Char) (size : Nat)
    (server_modified : List Char) (rest : List Metadata) :
    searchFilesLoop extensions max_results count
        (Metadata.file path_lower name size server_modified :: rest) =
      if max_results ≤ count then []
      else if extensions.any (fun ext => ext.isSuffixOf path_lower) then
        { file_path := path_lower
        , file_name := name
        , match_context := "Filename match: ".data ++ name
        , file_size := size
        , modified := server_modified } ::
          searchFilesLoop extensions max_results (count + 1) rest
      else searchFilesLoop extensions max_results count rest := rfl

theorem searchFilesLoop_cons_other (extensions : List (List Char))
    (max_results count : Nat) (rest : List Metadata) :
    searchFilesLoop extensions max_results count (Metadata.other :: rest) =
      if max_results ≤ count then []
      else searchFilesLoop extensions max_results count rest := rfl

theorem searchFilesLoop_suffix {extensions : List (List Char)} {max_results : Nat} :
    ∀ (count : Nat) (l : List Metadata) (r : SearchResult),
      r ∈ searchFilesLoop extensions max_results count l →
      ∃ ext ∈ extensions, ext.isSuffixOf r.file_path = true := by
  intro count l
  induction l generalizing count with
  | nil => intro r hr; exact absurd hr (by simp [searchFilesLoop])
  | cons m rest ih =>
    intro r hr
    cases m with
    | file path_lower name size server_modified =>
      rw [searchFilesLoop_cons_file] at hr
      by_cases hc : max_results ≤ count
      · rw [if_pos hc] at hr
        exact absurd hr (by simp)
      · rw [if_neg hc] at hr
        by_cases hext : extensions.any (fun ext => ext.isSuffixOf path_lower) = true
        · rw [if_pos hext] at hr
          rcases List.mem_cons.mp hr with heq | hmem
          · subst heq
            obtain ⟨ext, hmem, hsuf⟩ := List.any_eq_true.mp hext
            exact ⟨ext, hmem, hsuf⟩
          · exact ih (count + 1) r hmem
        · rw [if_neg hext] at hr
          exact ih count r hr
    | other =>
      rw [searchFilesLoop_cons_other] at hr
      by_cases hc : max_results ≤ count
      · rw [if_pos hc] at hr
        exact absurd hr (by simp)
      · rw [if_neg hc] at hr
        exact ih count r hr

theorem searchFilesLoop_length {extensions : List (List Char)} {max_results : Nat} :
    ∀ (count : Nat) (l : List Metadata),
      (searchFilesLoop extensions max_results count l).length ≤ max_results - count := by
  intro count l
  induction l generalizing count with
  | nil => simp [searchFilesLoop]
  | cons m rest ih =>
    cases m with
    | file path_lower name size server_modified =>
      rw [searchFilesLoop_cons_file]
      by_cases hc : max_results ≤ count
      · rw [if_pos hc]; simp
      · rw [if_neg hc]
        by_cases hext : extensions.any (fun ext => ext.isSuffixOf path_lower) = true
        · rw [if_pos hext]
          have := ih (count + 1)
          rw [List.length_cons]
          omega
        · rw [if_neg hext]
          have := ih count
          omega
    | other =>
      rw [searchFilesLoop_cons_other]
      by_cases hc : max_results ≤ count
      · rw [if_pos hc]; simp
      · rw [if_neg hc]
        have := ih count
        omega

/-- C7: with `file_types = "docx"` every entry `search_files` keeps has a
path ending in ".docx" or ".doc" (other remote matches are excluded); for
every `file_types` the filtered result list has at most `max_results`
entries; and the remote filename search is asked for `2 × max_results`
candidates. -/
theorem C7_search_files_filtering (remote_matches : List Metadata)
    (file_types : List Char) (max_results : Nat) (r : SearchResult)
    (hr : r ∈ search_files remote_matches "docx".data max_results) :
    (".docx".data.isSuffixOf r.file_path = true ∨
        ".doc".data.isSuffixOf r.file_path = true) ∧
      (search_files remote_matches file_types max_results).length ≤ max_results ∧
      remoteSearchLimit max_results = 2 * max_results := by
  refine ⟨?_, ?_, by rw [remoteSearchLimit]; omega⟩
  · have hparse : parseFileTypes "docx".data = [".docx".data, ".doc".data] := by decide
    rw [search_files, hparse] at hr
    obtain ⟨ext, hmem, hsuf⟩ := searchFilesLoop_suffix 0 remote_matches r hr
    simp only [List.mem_cons, List.mem_singleton] at hmem
    rcases hmem with rfl | rfl | hcon
    · exact Or.inl hsuf
    · exact Or.inr hsuf
    · exact absurd hcon (List.not_mem_nil ext)
  · rw [search_files]
    have := @searchFilesLoop_length (parseFileTypes file_types) max_results 0 remote_matches
    omega

/-- C7 witness: with a remote result list holding a ".txt" and a ".docx"
file, `file_types = "docx"` and `max_results = 1` keep only the ".docx"
entry. -/
theorem C7_witness :
    (⟨"/b.docx".data, "b.docx".data, "Filename match: b.docx".data, 5, "2020".data⟩ :
        SearchResult) ∈
        search_files
          [Metadata.file "/a.txt".data "a.txt".data 3 "2019".data,
            Metadata.file "/b.docx".data "b.docx".data 5 "2020".data]
          "docx".data 1 ∧
      ((".docx".data.isSuffixOf "/b.docx".data = true ∨
          ".doc".data.isSuffixOf "/b.docx".data = true) ∧
        (search_files
            [Metadata.file "/a.txt".data "a.txt".data 3 "2019".data,
              Metadata.file "/b.docx".data "b.docx".data 5 "2020".data]
            "txt".data 1).length ≤ 1 ∧
        remoteSearchLimit 1 = 2 * 1) :=
  ⟨by decide,
    C7_search_files_filtering
      [Metadata.file "/a.txt".data "a.txt".data 3 "2019".data,
        Metadata.file "/b.docx".data "b.docx".data 5 "2020".data]
      "txt".data 1
      ⟨"/b.docx".data, "b.docx".data, "Filename match: b.docx".data, 5, "2020".data⟩
      (by decide)⟩

/-- C8: a path whose extraction fails (a raised exception, modelled by
`Except.error`) is skipped and never aborts the batch: the batch result with
the failing path inserted anywhere is exactly the concatenation of the
results of the surrounding paths. -/
theorem C8_failing_path_skipped
    (getContent : List Char → Except (List Char) (List Char))
    (bad err : List Char) (hbad : getContent bad = Except.error err)
    (pre post : List (List Char)) (query : List Char) (context_chars : Nat) :
    search_file_content getContent (pre ++ bad :: post) query context_chars =
      search_file_content getContent pre query context_chars ++
        search_file_content getContent post query context_chars := by
  have hnone : processPath getContent query context_chars bad = none := by
    rw [processPath, hbad]
  rw [search_file_content, search_file_content, search_file_content,
    List.filterMap_append, List.filterMap_cons_none hnone]

/-- C8 witness: with the middle path failing, the batch still returns the
entries of the first and last paths. -/
theorem C8_witness :
    (fun p => if p.isEmpty then Except.error "boom".data else Except.ok "aaa".data :
          List Char → Except (List Char) (List Char)) [] = Except.error "boom".data ∧
      search_file_content
          (fun p => if p.isEmpty then Except.error "boom".data else Except.ok "aaa".data :
            List Char → Except (List Char) (List Char))
          (["a".data] ++ [] :: ["b".data]) "aa".data 0 =
        search_file_content
            (fun p => if p.isEmpty then Except.error "boom".data else Except.ok "aaa".data :
              List Char → Except (List Char) (List Char))
            ["a".data] "aa".data 0 ++
          search_file_content
            (fun p => if p.isEmpty then Except.error "boom".data else Except.ok "aaa".data :
              List Char → Except (List Char) (List Char))
            ["b".data] "aa".data 0 :=
  ⟨rfl,
    C8_failing_path_skipped
      (fun p => if p.isEmpty then Except.error "boom".data else Except.ok "aaa".data :
        List Char → Except (List Char) (List Char))
      [] "boom".data rfl ["a".data] ["b".data] "aa".data 0⟩

/-- C9: the extractors are total functions of the decode outcome — no case
raises — and when the decoder library is unavailable or decoding fails
internally they return a descriptive bracketed placeholder (carrying the
failure message) rather than propagating a hard failure. -/
theorem C9_extractors_degrade_gracefully (e : List Char) :
    extract_text_from_pdf DecodeOutcome.unavailable =
        "[PDF text extraction not available - install PyPDF2]".data ∧
      extract_text_from_pdf (DecodeOutcome.failure e) =
        "[Error extracting PDF text: ".data ++ e ++ "]".data ∧
      e <:+: extract_text_from_pdf (DecodeOutcome.failure e) ∧
      (extract_text_from_pdf (DecodeOutcome.failure e)).head? = some '[' ∧
      (extract_text_from_pdf (DecodeOutcome.failure e)).getLast? = some ']' ∧
      extract_text_from_docx DecodeOutcome.unavailable =
        "[DOCX text extraction not available - install python-docx]".data ∧
      extract_text_from_docx (DecodeOutcome.failure e) =
        "[Error extracting DOCX text: ".data ++ e ++ "]".data ∧
      e <:+: extract_text_from_docx (DecodeOutcome.failure e) ∧
      (extract_text_from_docx (DecodeOutcome.failure e)).head? = some '[' ∧
      (extract_text_from_docx (DecodeOutcome.failure e)).getLast? = some ']' := by
  refine ⟨rfl, rfl, ⟨"[Error extracting PDF text: ".data, "]".data, rfl⟩, rfl, ?_,
    rfl, rfl, ⟨"[Error extracting DOCX text: ".data, "]".data, rfl⟩, rfl, ?_⟩
  · show ("[Error extracting PDF text: ".data ++ e ++ "]".data).getLast? = some ']'
    rw [List.append_assoc, ← List.append_assoc]
    exact List.getLast?_concat _
  · show ("[Error extracting DOCX text: ".data ++ e ++ "]".data).getLast? = some ']'
    rw [List.append_assoc, ← List.append_assoc]
    exact List.getLast?_concat _

end DropboxMCP
